import Mathlib

/-!
Verification of the ReqTxtGenerator repository against its specification.

The repository contains two scripts that generate a pinned `requirements.txt`
for a Python project:

* `FirstEdition.py` — syntactic variant: walks the project, parses each `.py`
  AST of each file for import statements, harvests a Django settings file, filters
  stdlib/local names, resolves names via a static map and the installed-package
  metadata index, also checks a fixed set of known CLI tools, and writes the
  manifest.
* `GeminiWay.py` — inferential variant: concatenates the whole source tree,
  asks an external LLM for a comma-separated package list, resolves versions
  the same way, and writes the manifest.

The embedding below models the filesystem as the sequence of directory entries
produced by `os.walk` (in walk order), the installed-package metadata index as
a function from lookup name to an optional (reported Name, version) pair, and
every pipeline stage as a pure function mirroring the corresponding Python
loop.
-/

set_option maxRecDepth 4000

/-- Python `s.endswith(suffix)`. -/
def pyEndsWith (s suffix : String) : Bool :=
  suffix.data.isSuffixOf s.data

/-- Python `s.lower()` (the names compared here are ASCII, where
`Char.toLower` agrees with Python). -/
def lowerStr (s : String) : String :=
  ⟨s.data.map Char.toLower⟩

/-- Python `s.strip()`: whitespace removed from both ends. -/
def pyStrip (s : String) : String :=
  ⟨((s.data.dropWhile Char.isWhitespace).reverse.dropWhile Char.isWhitespace).reverse⟩

/-- Auxiliary for `pySplitComma`, accumulating the current token reversed. -/
def splitCommaAux : List Char → List Char → List String
  | [], acc => [⟨acc.reverse⟩]
  | c :: cs, acc =>
    if c = ',' then ⟨acc.reverse⟩ :: splitCommaAux cs []
    else splitCommaAux cs (c :: acc)

/-- Python `s.split(',')` (on the empty string it yields `[""]`, like
Python). -/
def pySplitComma (s : String) : List String :=
  splitCommaAux s.data []

/-- `s.split('.')[0]` in Python: the first dotted segment of a module path. -/
def headSegment (s : String) : String :=
  ⟨s.data.takeWhile (fun c => c ≠ '.')⟩

/-- The Python `<=` on strings, char-list level: lexicographic comparison by
code point. -/
def charListLe : List Char → List Char → Bool
  | [], _ => true
  | _ :: _, [] => false
  | a :: as, b :: bs =>
    if a.toNat < b.toNat then true
    else if b.toNat < a.toNat then false
    else charListLe as bs

/-- The ordering used by `sorted` on candidate-name strings. -/
def strLeR (a b : String) : Prop :=
  charListLe a.data b.data = true

instance : DecidableRel strLeR := fun a b =>
  inferInstanceAs (Decidable (charListLe a.data b.data = true))

/-- The import-relevant shapes of a Python AST statement, as visited by
`ast.walk` in the two scanners: a plain `import a.b, c` statement
(`ast.Import`, carrying the dotted alias names), a `from X import ...`
statement (`ast.ImportFrom`, carrying the relative-import level and the
optional module), an assignment of a list/tuple of string literals to one or
more plain names (the only `ast.Assign` shape the Django settings scanner
harvests), and anything else. -/
inductive Stmt where
  | importStmt (names : List String)
  | importFrom (level : Nat) (module : Option String)
  | assign (targets : List String) (elts : List String)
  | other
deriving DecidableEq

/-- One file as the scanners see it: its basename, whether it can be read
(an unreadable file raises and is skipped), its raw text (the inferential
corpus of the inferential variant) and its parse result (`none` models an `ast.parse` failure;
both are swallowed by the `except` clauses). -/
structure PyFile where
  name : String
  readable : Bool
  text : String
  ast : Option (List Stmt)
deriving DecidableEq

/-- One `(dirpath, dirnames, filenames)` tuple of `os.walk`, identified by its
path segments below the project root (`[]` is the root itself) and its files.
The `entries` list of a project is the walk output in walk order. -/
structure DirEntry where
  path : List String
  files : List PyFile
deriving DecidableEq

/-- A project tree as both scripts observe it: the basename of the root directory,
the `os.listdir` of the directory *containing* the root (consulted by the
settings scanner when the root itself holds `settings.py`), and the `os.walk`
entries in walk order. -/
structure Project where
  rootName : String
  rootParentListing : List String
  entries : List DirEntry
deriving DecidableEq

namespace FirstEdition

/-- `IMPORT_TO_PYPI_MAP` of `FirstEdition.py`, verbatim. -/
def IMPORT_TO_PYPI_MAP : List (String × String) :=
  [("corsheaders", "django-cors-headers"),
   ("rest_framework", "djangorestframework"),
   ("rest_framework_simplejwt", "djangorestframework-simplejwt"),
   ("django_filters", "django-filter"),
   ("crispy_forms", "django-crispy-forms"),
   ("cloudinary_storage", "django-cloudinary-storage"),
   ("bs4", "beautifulsoup4"),
   ("dateutil", "python-dateutil"),
   ("dotenv", "python-dotenv"),
   ("jose", "python-jose"),
   ("jwt", "PyJWT"),
   ("PIL", "Pillow"),
   ("werkzeug", "Werkzeug"),
   ("jinja2", "Jinja2"),
   ("cv2", "opencv-python"),
   ("faiss", "faiss-cpu"),
   ("sklearn", "scikit-learn"),
   ("tavily", "tavily-python"),
   ("yaml", "PyYAML"),
   ("psycopg2", "psycopg2-binary"),
   ("MySQLdb", "mysqlclient"),
   ("Crypto", "pycryptodome"),
   ("pkg_resources", "setuptools"),
   ("youtube_search", "youtube-search")]

/-- `KNOWN_CLI_AND_CONFIG_TOOLS` of `FirstEdition.py`.  In the source this is
a Python `set` literal; its iteration order is therefore not fixed across
runs, so every theorem about the tools pass takes the iteration order as an
explicit list parameter. This list records the elements in source order. -/
def KNOWN_CLI_AND_CONFIG_TOOLS : List String :=
  ["gunicorn", "uvicorn", "daphne", "whitenoise", "black",
   "isort", "flake8", "mypy", "pytest", "pip-tools"]

/-- The `exclude_dirs` set of `_scan_python_files`. -/
def exclude_dirs : List String :=
  [".venv", "venv", "env", "build", "dist", ".git", "__pycache__", "node_modules"]

end FirstEdition

/-- `dict.get(key, key)`: the static name map consulted with identity
fallback, as in `IMPORT_TO_PYPI_MAP.get(imp, imp)`. -/
def mapGet (m : List (String × String)) (k : String) : String :=
  (m.lookup k).getD k

/-- The metadata index (`importlib.metadata`): a lookup name either resolves
to the pair (metadata `Name`, `dist.version`) or raises
`PackageNotFoundError` (`none`).  `dist.version` is `Option String` because
`importlib` reports `None` when the Version field is absent. -/
def PkgEnv : Type := String → Option (String × Option String)

/-- `_get_package_info` / the `importlib.metadata.distribution` call applied
to one lookup name. -/
def get_package_info (env : PkgEnv) (name : String) : Option (String × Option String) :=
  env name

/-- The `ast.walk` collection loop shared by `_scan_python_files`, applied to
one parsed file: every `ast.Import` alias contributes its first dotted
segment; an `ast.ImportFrom` contributes the first dotted segment of its module
unless the import is relative (`node.level > 0`) or the module is absent
(`if node.module:` also rejects an empty module string). -/
def collectStmtImports : List Stmt → List String
  | [] => []
  | Stmt.importStmt names :: rest =>
      names.map headSegment ++ collectStmtImports rest
  | Stmt.importFrom level mod :: rest =>
      (if level > 0 then []
       else match mod with
         | some m => if m = "" then [] else [headSegment m]
         | none => []) ++ collectStmtImports rest
  | Stmt.assign _ _ :: rest => collectStmtImports rest
  | Stmt.other :: rest => collectStmtImports rest

namespace FirstEdition

/-- The per-file part of `_scan_python_files`: only files ending in `.py` are
considered, and a read or parse failure is swallowed (`except: pass`),
contributing nothing. -/
def fileImports (f : PyFile) : List String :=
  if pyEndsWith f.name ".py" then
    match (if f.readable then f.ast else none) with
    | some stmts => collectStmtImports stmts
    | none => []
  else []

/-- A walk entry survives the `dirnames[:] = [d for d in dirnames if d not in
exclude_dirs]` pruning iff no segment of its path is an excluded directory
name (pruning cuts the whole subtree below an excluded directory). -/
def visited (e : DirEntry) : Bool :=
  e.path.all (fun seg => !(exclude_dirs.contains seg))

/-- All import candidates one entry contributes to `_scan_python_files`. -/
def entryImports (e : DirEntry) : List String :=
  (e.files.map fileImports).flatten

/-- `_scan_python_files`: the candidates collected over the pruned walk.  The
Python code accumulates them into a set; the list here preserves discovery
order and downstream stages only use its membership. -/
def scan_python_files (p : Project) : List String :=
  ((p.entries.filter visited).map entryImports).flatten

/-- `os.listdir` of a directory inside the project: the file names of its entry
plus the basenames of its immediate subdirectories. -/
def listdir (p : Project) (path : List String) : List String :=
  ((p.entries.filter (fun e => e.path = path)).map
    (fun e => e.files.map PyFile.name)).flatten
  ++ p.entries.filterMap (fun e =>
      if e.path ≠ [] ∧ e.path.dropLast = path then e.path.getLast? else none)

/-- `os.listdir(os.path.dirname(dirpath))`: for the root entry this looks one
level above the project root. -/
def parentListing (p : Project) (e : DirEntry) : List String :=
  if e.path = [] then p.rootParentListing else listdir p e.path.dropLast

/-- The harvesting loop of `_scan_django_settings` over one parsed settings
file: for every assignment whose target is `INSTALLED_APPS` or `MIDDLEWARE`
and whose value is a list/tuple of string literals, the first dotted segment
of every element.  (The Python code adds the elements to a set once per
matching target; repeated targets are absorbed by set semantics, which the
downstream membership-only use preserves.) -/
def djangoHarvest : List Stmt → List String
  | [] => []
  | Stmt.assign targets elts :: rest =>
      (if targets.any (fun t => t == "INSTALLED_APPS" || t == "MIDDLEWARE")
       then elts.map headSegment else []) ++ djangoHarvest rest
  | Stmt.importStmt _ :: rest => djangoHarvest rest
  | Stmt.importFrom _ _ :: rest => djangoHarvest rest
  | Stmt.other :: rest => djangoHarvest rest

/-- `_scan_django_settings`: walks the tree *without* pruning, takes the
first directory that contains `settings.py` and whose parent listing
contains `manage.py`, harvests that settings file (a read or parse failure
prints a warning and harvests nothing), and returns immediately; no match
yields the empty set. -/
def scan_django_settings (p : Project) : List String :=
  match p.entries.find? (fun e =>
      (e.files.map PyFile.name).contains "settings.py"
      && (parentListing p e).contains "manage.py") with
  | none => []
  | some e =>
    match e.files.find? (fun f => f.name = "settings.py") with
    | none => []
    | some f =>
      match (if f.readable then f.ast else none) with
      | some stmts => djangoHarvest stmts
      | none => []

/-- The basename of the directory of a walk entry (for the root entry it is
the name of the project root itself). -/
def dirBasename (rootName : String) (e : DirEntry) : String :=
  e.path.getLastD rootName

/-- `_find_local_modules`: the basename of every directory of the *unpruned*
walk that contains an `__init__.py`, plus the basename of the root directory. -/
def find_local_modules (p : Project) : List String :=
  (p.entries.filter (fun e => (e.files.map PyFile.name).contains "__init__.py")).map
    (dirBasename p.rootName)
  ++ [p.rootName]

/-- The Step-2 filter predicate of `run`:
`imp and imp not in self.std_lib and imp not in self.local_modules`. -/
def keepCandidate (stdLib localModules : List String) (imp : String) : Bool :=
  imp != "" && !(stdLib.contains imp) && !(localModules.contains imp)

/-- Step 1 of `run`: `discovered_imports.update(django_imports)`. -/
def discovered_imports (p : Project) : List String :=
  scan_python_files p ++ scan_django_settings p

/-- Step 2 of `run`: the set comprehension filtering stdlib and local names.
The standard-library set (`sys.stdlib_module_names`) is interpreter state, so
it is a parameter. -/
def external_imports (stdLib : List String) (p : Project) : List String :=
  (discovered_imports p).filter (keepCandidate stdLib (find_local_modules p))

end FirstEdition

/-- `sorted(...)` on a list of strings (the lexicographic Python string sort;
stable, which for equal strings is invisible). -/
def sortStr (l : List String) : List String :=
  l.insertionSort strLeR

/-- `sorted(list(s))` for a Python set `s` collected from `l`: deduplicate,
then sort. -/
def pySortedSet (l : List String) : List String :=
  sortStr l.dedup

/-- The shared resolution loop (Step 3 of `FirstEdition.run` and the body of
`GeminiWay._parse_and_resolve_versions`) with its two accumulators: the
requirements mapping in insertion order (a Python dict) and the list of
candidates that failed to resolve (`unresolved_imports` / the per-package
warnings).  Each candidate is corrected through the static name map, looked
up in the metadata index, and recorded under the index-reported Name unless
that Name is already present. -/
def resolveGo (env : PkgEnv) (nameMap : List (String × String)) :
    List String → List (String × Option String) → List String →
    List (String × Option String) × List String
  | [], reqs, unres => (reqs, unres)
  | c :: rest, reqs, unres =>
    match get_package_info env (mapGet nameMap c) with
    | some pv =>
        if (reqs.map Prod.fst).contains pv.1 then
          resolveGo env nameMap rest reqs unres
        else
          resolveGo env nameMap rest (reqs ++ [(pv.1, pv.2)]) unres
    | none => resolveGo env nameMap rest reqs (unres ++ [c])

/-- The resolution loop started from the empty accumulators, as both scripts
do. -/
def resolveCandidates (env : PkgEnv) (nameMap : List (String × String))
    (cands : List String) : List (String × Option String) × List String :=
  resolveGo env nameMap cands [] []

/-- A Python dict assignment `d[k] = v`: update in place when the key exists,
append otherwise. -/
def dictInsert (reqs : List (String × Option String)) (k : String)
    (v : Option String) : List (String × Option String) :=
  if (reqs.map Prod.fst).contains k then
    reqs.map (fun e => if e.1 = k then (k, v) else e)
  else reqs ++ [(k, v)]

namespace FirstEdition

/-- Step 4 of `run`: the `KNOWN_CLI_AND_CONFIG_TOOLS` pass.  A tool already
present *as a key* is skipped; otherwise it is looked up directly (no name
map) and recorded under the index-reported Name by dict assignment.  `tools`
is the iteration order of the Python set. -/
def toolsPass (env : PkgEnv) (tools : List String)
    (reqs : List (String × Option String)) : List (String × Option String) :=
  tools.foldl (fun rs t =>
    if (rs.map Prod.fst).contains t then rs
    else match get_package_info env t with
      | some pv => dictInsert rs pv.1 pv.2
      | none => rs) reqs

/-- `RequirementsGenerator.run`: scan, filter, resolve in sorted order, then
the known-tools pass.  Returns the final requirements dict in insertion
order. -/
def run (stdLib : List String) (env : PkgEnv) (toolOrder : List String)
    (p : Project) : List (String × Option String) :=
  toolsPass env toolOrder
    (resolveCandidates env IMPORT_TO_PYPI_MAP
      (pySortedSet (external_imports stdLib p))).1

end FirstEdition

/-- The case-insensitive sort key of both writers:
`sorted(..., key=lambda item: item[0].lower())`. -/
def reqLe (a b : String × Option String) : Prop :=
  charListLe (lowerStr a.1).data (lowerStr b.1).data = true

instance : DecidableRel reqLe := fun a b =>
  inferInstanceAs (Decidable (charListLe (lowerStr a.1).data (lowerStr b.1).data = true))

/-- The stable Python `sorted` by lowercased name, applied to the insertion-
ordered requirements dict (insertion sort is stable, like the Python sort). -/
def sortReqs (reqs : List (String × Option String)) : List (String × Option String) :=
  reqs.insertionSort reqLe

/-- How an `Option String` renders inside a Python f-string (`None` for the
absent case). -/
def pyOptStr : Option String → String
  | some s => s
  | none => "None"

namespace FirstEdition

/-- The two header lines and the blank line written by `write_file`. -/
def FE_HEADER : String :=
  "# Generated by project scanner. Review for accuracy.\n"
  ++ "# This file lists direct dependencies. Sub-dependencies are handled by pip.\n\n"

/-- One requirement line:
`f"{package}=={version}\n" if version else f"{package}\n"` — the bare name
when the version is `None` or the empty string. -/
def reqLine (e : String × Option String) : String :=
  match e.2 with
  | some v => if v = "" then e.1 ++ "\n" else e.1 ++ "==" ++ v ++ "\n"
  | none => e.1 ++ "\n"

/-- `RequirementsGenerator.write_file`: the header, then the write loop over
the case-insensitively sorted requirements.  The file is opened in write mode, so the produced string is the complete new file content regardless of
what was at the path before. -/
def write_file (reqs : List (String × Option String)) : String :=
  (sortReqs reqs).foldl (fun acc e => acc ++ reqLine e) FE_HEADER

/-- `FirstEdition.main`: constructs the generator, runs it and writes the
file.  `main` contains no abort path (`sys.exit` is never called), so the
exit status is always `0` and a manifest is always written. -/
def main (stdLib : List String) (env : PkgEnv) (toolOrder : List String)
    (p : Project) : Nat × Option String :=
  (0, some (write_file (run stdLib env toolOrder p)))

end FirstEdition

namespace GeminiWay

/-- `IMPORT_TO_PYPI_MAP` of `GeminiWay.py`, verbatim. -/
def IMPORT_TO_PYPI_MAP : List (String × String) :=
  [("bs4", "beautifulsoup4"),
   ("cv2", "opencv-python"),
   ("dateutil", "python-dateutil"),
   ("dotenv", "python-dotenv"),
   ("PIL", "Pillow"),
   ("sklearn", "scikit-learn"),
   ("yaml", "PyYAML"),
   ("rest_framework", "djangorestframework"),
   ("corsheaders", "django-cors-headers"),
   ("jose", "python-jose"),
   ("jwt", "PyJWT"),
   ("youtube_search", "youtube-search")]

/-- The `exclude_dirs` set of `_ingest_project_code` (same as in the syntactic
variant). -/
def exclude_dirs : List String :=
  [".venv", "venv", "env", "build", "dist", ".git", "__pycache__", "node_modules"]

/-- The `exclude_files` set of `_ingest_project_code`. -/
def exclude_files : List String :=
  ["gemini_reqs.py", "requirements.txt"]

/-- Pruned-walk visit condition, as in the syntactic variant. -/
def visited (e : DirEntry) : Bool :=
  e.path.all (fun seg => !(exclude_dirs.contains seg))

/-- `os.path.relpath(file_path, self.root_dir)`. -/
def relPath (e : DirEntry) (f : PyFile) : String :=
  String.intercalate "/" (e.path ++ [f.name])

/-- The corpus block one readable `.py` file contributes to
`_ingest_project_code`; excluded or unreadable files contribute nothing
(a read failure prints a warning and skips the file). -/
def fileBlock (e : DirEntry) (f : PyFile) : List String :=
  if pyEndsWith f.name ".py" && !(exclude_files.contains f.name) && f.readable then
    ["--- FILE: " ++ relPath e f ++ " ---\n\n" ++ f.text]
  else []

/-- The `code_files` list of `_ingest_project_code` over the pruned walk. -/
def geminiCodeFiles (p : Project) : List String :=
  ((p.entries.filter visited).map
    (fun e => (e.files.map (fileBlock e)).flatten)).flatten

/-- The ingested corpus, `"\n\n".join(code_files)`. -/
def project_code (p : Project) : String :=
  String.intercalate "\n\n" (geminiCodeFiles p)

/-- The warning printed for an empty service response. -/
def EMPTY_RESPONSE_WARNING : String :=
  "Gemini returned an empty response. No packages found."

/-- `_parse_and_resolve_versions`: an empty (falsy) response short-circuits
with a warning and leaves the requirements empty; otherwise the response is
split on commas, the tokens stripped, empty tokens dropped, and the sorted
token list fed through the shared resolution loop.  The second component is
the emitted warnings (the per-package not-installed warnings name the
original suggestion). -/
def parse_and_resolve_versions (env : PkgEnv) (gemini_output : String) :
    List (String × Option String) × List String :=
  if gemini_output = "" then ([], [EMPTY_RESPONSE_WARNING])
  else
    let potential := ((pySplitComma (pyStrip gemini_output)).map pyStrip).filter
      (fun s => s ≠ "")
    resolveCandidates env IMPORT_TO_PYPI_MAP (sortStr potential)

/-- The two header lines and the blank line written by
`GeminiRequirementsGenerator.write_file`. -/
def GEMINI_HEADER : String :=
  "# Generated by Gemini AI. Review for accuracy.\n"
  ++ "# This file lists the direct dependencies identified from the source code.\n\n"

/-- `GeminiRequirementsGenerator.write_file`: header plus
`f"{package}=={version}\n"` per entry, case-insensitively sorted; this writer
has no bare-name branch.  Write mode again makes the result the complete new
file content. -/
def write_file (reqs : List (String × Option String)) : String :=
  (sortReqs reqs).foldl
    (fun acc e => acc ++ (e.1 ++ "==" ++ pyOptStr e.2 ++ "\n")) GEMINI_HEADER

/-- `GeminiRequirementsGenerator.run` observed at the process boundary,
together with the guards of `__init__` and `main`: a missing API key and the
absence of any source file raise before anything is written, and a service
error exits without writing; otherwise the manifest content and the warnings
are produced.  `response` is the outcome of the one service call. -/
def geminiRun (env : PkgEnv) (apiKey : String) (response : Except String String)
    (p : Project) : Except String (String × List String) :=
  if apiKey = "" then Except.error "GOOGLE_API_KEY environment variable not set."
  else if geminiCodeFiles p = [] then
    Except.error "No Python source files found to analyze."
  else
    match response with
    | Except.error e => Except.error e
    | Except.ok out =>
        let rw := parse_and_resolve_versions env out
        Except.ok (write_file rw.1, rw.2)

/-- `GeminiWay.main`: every raised error is caught (or is a `sys.exit(1)`)
and yields exit status 1 with no manifest written; a completed run exits 0
with the written manifest and the warnings that were printed. -/
def main (env : PkgEnv) (apiKey : String) (response : Except String String)
    (p : Project) : Nat × Option String × List String :=
  match geminiRun env apiKey response p with
  | Except.error _ => (1, none, [])
  | Except.ok (m, w) => (0, some m, w)

end GeminiWay

/-- The value the resolution loop ends up associating with a reported
distribution name `P`: the version carried by the first candidate in
processing order whose map-corrected lookup resolves to `P` (`none` when no
candidate does). -/
def firstHit (env : PkgEnv) (nameMap : List (String × String)) :
    List String → String → Option (Option String)
  | [], _ => none
  | c :: rest, P =>
    match get_package_info env (mapGet nameMap c) with
    | some pv => if pv.1 = P then some pv.2 else firstHit env nameMap rest P
    | none => firstHit env nameMap rest P

/-- Concatenation of the rendered pieces, the declarative form of the write
loops. -/
def joinMap (g : α → String) : List α → String
  | [] => ""
  | x :: xs => g x ++ joinMap g xs

/-! ### Order facts about the embedded string comparison -/

theorem charListLe_total : ∀ a b : List Char,
    charListLe a b = true ∨ charListLe b a = true
  | [], _ => Or.inl rfl
  | _ :: _, [] => Or.inr rfl
  | a :: as, b :: bs => by
    simp only [charListLe]
    rcases Nat.lt_trichotomy a.toNat b.toNat with h | h | h
    · simp [h]
    · simp only [h, Nat.lt_irrefl, if_false]
      exact charListLe_total as bs
    · simp [h, Nat.lt_asymm h]

theorem charListLe_trans : ∀ {a b c : List Char},
    charListLe a b = true → charListLe b c = true → charListLe a c = true
  | [], _, _, _, _ => rfl
  | _ :: _, [], _, h, _ => by simp [charListLe] at h
  | _ :: _, _ :: _, [], _, h => by simp [charListLe] at h
  | a :: as, b :: bs, c :: cs, h1, h2 => by
    simp only [charListLe] at h1 h2 ⊢
    rcases Nat.lt_trichotomy a.toNat b.toNat with hab | hab | hab
    · rcases Nat.lt_trichotomy b.toNat c.toNat with hbc | hbc | hbc
      · simp [Nat.lt_trans hab hbc]
      · simp [hbc ▸ hab]
      · rw [if_neg (Nat.lt_asymm hbc), if_pos hbc] at h2
        simp at h2
    · rw [if_neg (by omega), if_neg (by omega)] at h1
      rcases Nat.lt_trichotomy b.toNat c.toNat with hbc | hbc | hbc
      · simp [show a.toNat < c.toNat by omega]
      · rw [if_neg (by omega), if_neg (by omega)] at h2
        rw [if_neg (by omega), if_neg (by omega)]
        exact charListLe_trans h1 h2
      · rw [if_neg (Nat.lt_asymm hbc), if_pos hbc] at h2
        simp at h2
    · rw [if_neg (Nat.lt_asymm hab), if_pos hab] at h1
      simp at h1

theorem charListLe_antisymm : ∀ {a b : List Char},
    charListLe a b = true → charListLe b a = true → a = b
  | [], [], _, _ => rfl
  | [], _ :: _, _, h => by simp [charListLe] at h
  | _ :: _, [], h, _ => by simp [charListLe] at h
  | a :: as, b :: bs, h1, h2 => by
    simp only [charListLe] at h1 h2
    rcases Nat.lt_trichotomy a.toNat b.toNat with hab | hab | hab
    · rw [if_neg (Nat.lt_asymm hab), if_pos hab] at h2
      simp at h2
    · rw [if_neg (by omega), if_neg (by omega)] at h1
      rw [if_neg (by omega), if_neg (by omega)] at h2
      rw [Char.ext (UInt32.ext hab), charListLe_antisymm h1 h2]
    · rw [if_neg (Nat.lt_asymm hab), if_pos hab] at h1
      simp at h1

instance : IsTotal String strLeR :=
  ⟨fun a b => charListLe_total a.data b.data⟩

instance : IsTrans String strLeR :=
  ⟨fun _ _ _ h1 h2 => charListLe_trans h1 h2⟩

instance : IsAntisymm String strLeR :=
  ⟨fun a b h1 h2 => by
    cases a; cases b
    exact congrArg String.mk (charListLe_antisymm h1 h2)⟩

instance : IsTotal (String × Option String) reqLe :=
  ⟨fun a b => charListLe_total (lowerStr a.1).data (lowerStr b.1).data⟩

instance : IsTrans (String × Option String) reqLe :=
  ⟨fun _ _ _ h1 h2 => charListLe_trans h1 h2⟩

/-! ### Generic list helpers -/

theorem contains_eq_true_iff {l : List String} {a : String} :
    l.contains a = true ↔ a ∈ l :=
  List.elem_iff

theorem contains_congr {l₁ l₂ : List String} (h : ∀ x, x ∈ l₁ ↔ x ∈ l₂)
    (a : String) : l₁.contains a = l₂.contains a := by
  by_cases hm : a ∈ l₁
  · rw [contains_eq_true_iff.mpr hm, contains_eq_true_iff.mpr ((h a).mp hm)]
  · have hm₂ : a ∉ l₂ := fun hx => hm ((h a).mpr hx)
    rw [Bool.eq_iff_iff, contains_eq_true_iff, contains_eq_true_iff]
    exact iff_of_false hm hm₂

theorem mem_pySortedSet {l : List String} {x : String} :
    x ∈ pySortedSet l ↔ x ∈ l := by
  unfold pySortedSet sortStr
  rw [(List.perm_insertionSort strLeR l.dedup).mem_iff]
  exact List.mem_dedup

/-- Two collections with the same members have the same `sorted(list(set(·)))`
image: this is what makes every downstream stage independent of discovery
order. -/
theorem pySortedSet_ext {l₁ l₂ : List String} (h : ∀ x, x ∈ l₁ ↔ x ∈ l₂) :
    pySortedSet l₁ = pySortedSet l₂ := by
  unfold pySortedSet sortStr
  have hd : l₁.dedup.Perm l₂.dedup := by
    rw [List.perm_ext_iff_of_nodup (List.nodup_dedup l₁) (List.nodup_dedup l₂)]
    intro a
    rw [List.mem_dedup, List.mem_dedup]
    exact h a
  have hp : (l₁.dedup.insertionSort strLeR).Perm (l₂.dedup.insertionSort strLeR) :=
    ((List.perm_insertionSort strLeR l₁.dedup).trans hd).trans
      (List.perm_insertionSort strLeR l₂.dedup).symm
  exact List.eq_of_perm_of_sorted hp
    (List.sorted_insertionSort strLeR l₁.dedup)
    (List.sorted_insertionSort strLeR l₂.dedup)

theorem foldl_append_eq_joinMap (g : α → String) :
    ∀ (l : List α) (acc : String),
      l.foldl (fun a e => a ++ g e) acc = acc ++ joinMap g l
  | [], acc => by simp [joinMap]
  | x :: xs, acc => by
    simp only [List.foldl_cons, joinMap]
    rw [foldl_append_eq_joinMap g xs (acc ++ g x), String.append_assoc]

theorem lookup_some_mem {β : Type} : ∀ {l : List (String × β)} {k : String} {v : β},
    l.lookup k = some v → (k, v) ∈ l
  | [], _, _, h => by simp [List.lookup] at h
  | (a, b) :: rest, k, v, h => by
    simp only [List.lookup] at h
    by_cases hk : k = a
    · subst hk
      simp only [beq_self_eq_true, if_true] at h
      cases h
      exact List.mem_cons_self _ _
    · have : (k == a) = false := beq_eq_false_iff_ne.mpr hk
      rw [this] at h
      simp only [Bool.false_eq_true, if_false] at h
      exact List.mem_cons_of_mem _ (lookup_some_mem h)

theorem lookup_append_single {β : Type} :
    ∀ (l : List (String × β)) (k p : String) (v : β),
      (l ++ [(p, v)]).lookup k
        = ((l.lookup k).or (if k = p then some v else none))
  | [], k, p, v => by
    by_cases h : k = p
    · simp [List.lookup, h, Option.or]
    · have hb : (k == p) = false := beq_eq_false_iff_ne.mpr h
      simp [List.lookup, hb, h, Option.or]
  | (a, b) :: rest, k, p, v => by
    simp only [List.cons_append, List.lookup]
    by_cases hk : k = a
    · simp [hk, Option.or]
    · have : (k == a) = false := beq_eq_false_iff_ne.mpr hk
      rw [this]
      simp only [Bool.false_eq_true, if_false]
      exact lookup_append_single rest k p v

theorem lookup_isSome_of_contains {β : Type} :
    ∀ {l : List (String × β)} {k : String},
      (l.map Prod.fst).contains k = true → ∃ v, l.lookup k = some v
  | [], _, h => by simp at h
  | (a, b) :: rest, k, h => by
    simp only [List.lookup]
    by_cases hk : k = a
    · exact ⟨b, by simp [hk]⟩
    · have hb : (k == a) = false := beq_eq_false_iff_ne.mpr hk
      rw [hb]
      simp only [Bool.false_eq_true, if_false]
      apply lookup_isSome_of_contains
      simp only [List.map_cons, List.contains_cons, Bool.or_eq_true] at h
      rcases h with h | h
      · exact absurd (beq_iff_eq.mp h) hk
      · exact h

theorem nodup_append_singleton {α : Type} {l : List α} {p : α}
    (h : l.Nodup) (hp : p ∉ l) : (l ++ [p]).Nodup :=
  ((List.perm_append_singleton p l).nodup_iff).mpr (List.nodup_cons.mpr ⟨hp, h⟩)

/-! ### Invariants of the shared resolution loop -/

theorem lookup_resolveGo (env : PkgEnv) (nameMap : List (String × String))
    (P : String) :
    ∀ (cands : List String) (reqs : List (String × Option String))
      (unres : List String),
      ((resolveGo env nameMap cands reqs unres).1.lookup P)
        = (reqs.lookup P).or (firstHit env nameMap cands P)
  | [], reqs, unres => by simp [resolveGo, firstHit, Option.or_none]
  | c :: rest, reqs, unres => by
    cases henv : get_package_info env (mapGet nameMap c) with
    | none =>
      simp only [resolveGo, firstHit, henv]
      exact lookup_resolveGo env nameMap P rest reqs _
    | some pv =>
      simp only [resolveGo, firstHit, henv]
      by_cases hc : (reqs.map Prod.fst).contains pv.1
      · rw [if_pos hc]
        rw [lookup_resolveGo env nameMap P rest reqs unres]
        by_cases hP : pv.1 = P
        · obtain ⟨w, hw⟩ := lookup_isSome_of_contains (hP ▸ hc)
          rw [if_pos hP, hw]
          rfl
        · rw [if_neg hP]
      · rw [if_neg hc]
        rw [lookup_resolveGo env nameMap P rest (reqs ++ [(pv.1, pv.2)]) unres]
        rw [lookup_append_single reqs P pv.1 pv.2]
        by_cases hP : pv.1 = P
        · subst hP
          have hnone : reqs.lookup pv.1 = none := by
            cases hl : reqs.lookup pv.1 with
            | none => rfl
            | some w =>
              have hpair : (pv.1, w) ∈ reqs := lookup_some_mem hl
              have hmem : pv.1 ∈ reqs.map Prod.fst :=
                List.mem_map.mpr ⟨(pv.1, w), hpair, rfl⟩
              exact absurd (contains_eq_true_iff.mpr hmem) hc
          simp [hnone, Option.or]
        · have : (if P = pv.1 then some pv.2 else none) = none :=
            if_neg (fun hx => hP hx.symm)
          rw [this, Option.or_none, if_neg hP]

theorem keys_nodup_resolveGo (env : PkgEnv) (nameMap : List (String × String)) :
    ∀ (cands : List String) (reqs : List (String × Option String))
      (unres : List String),
      (reqs.map Prod.fst).Nodup →
      ((resolveGo env nameMap cands reqs unres).1.map Prod.fst).Nodup
  | [], reqs, unres, h => h
  | c :: rest, reqs, unres, h => by
    cases henv : get_package_info env (mapGet nameMap c) with
    | none =>
      simp only [resolveGo, henv]
      exact keys_nodup_resolveGo env nameMap rest reqs _ h
    | some pv =>
      simp only [resolveGo, henv]
      by_cases hc : (reqs.map Prod.fst).contains pv.1
      · rw [if_pos hc]
        exact keys_nodup_resolveGo env nameMap rest reqs unres h
      · rw [if_neg hc]
        apply keys_nodup_resolveGo env nameMap rest _ unres
        rw [List.map_append]
        simp only [List.map_cons, List.map_nil]
        exact nodup_append_singleton h
          (fun hx => hc (contains_eq_true_iff.mpr hx))

/-- `dictInsert` never changes the key multiset beyond appending a genuinely
new key, so unique keys are preserved. -/
theorem keys_nodup_dictInsert (reqs : List (String × Option String))
    (k : String) (v : Option String) (h : (reqs.map Prod.fst).Nodup) :
    ((dictInsert reqs k v).map Prod.fst).Nodup := by
  unfold dictInsert
  by_cases hc : (reqs.map Prod.fst).contains k
  · rw [if_pos hc]
    have : (reqs.map (fun e => if e.1 = k then (k, v) else e)).map Prod.fst
        = reqs.map Prod.fst := by
      rw [List.map_map]
      apply List.map_congr_left
      intro e _
      by_cases he : e.1 = k
      · simp [he]
      · simp [he]
    rw [this]
    exact h
  · rw [if_neg hc]
    rw [List.map_append]
    simp only [List.map_cons, List.map_nil]
    exact nodup_append_singleton h
      (fun hx => hc (contains_eq_true_iff.mpr hx))

theorem keys_nodup_toolsPass (env : PkgEnv) :
    ∀ (tools : List String) (reqs : List (String × Option String)),
      (reqs.map Prod.fst).Nodup →
      ((FirstEdition.toolsPass env tools reqs).map Prod.fst).Nodup
  | [], reqs, h => h
  | t :: rest, reqs, h => by
    simp only [FirstEdition.toolsPass, List.foldl_cons]
    have step : ∀ (reqs' : List (String × Option String)),
        (reqs'.map Prod.fst).Nodup →
        (((if (reqs'.map Prod.fst).contains t then reqs'
           else match get_package_info env t with
             | some pv => dictInsert reqs' pv.1 pv.2
             | none => reqs').map Prod.fst)).Nodup := by
      intro reqs' h'
      by_cases hc : (reqs'.map Prod.fst).contains t
      · rw [if_pos hc]; exact h'
      · rw [if_neg hc]
        cases get_package_info env t with
        | none => exact h'
        | some pv => exact keys_nodup_dictInsert reqs' pv.1 pv.2 h'
    exact keys_nodup_toolsPass env rest _ (step reqs h)

/-! ### Membership characterizations of the scanning stages -/

theorem keepCandidate_iff {stdLib locals : List String} {imp : String} :
    FirstEdition.keepCandidate stdLib locals imp = true ↔
      imp ≠ "" ∧ imp ∉ stdLib ∧ imp ∉ locals := by
  unfold FirstEdition.keepCandidate
  simp only [Bool.and_eq_true, bne_iff_ne, Bool.not_eq_true]
  constructor
  · rintro ⟨⟨h1, h2⟩, h3⟩
    refine ⟨h1, ?_, ?_⟩
    · intro hm
      rw [contains_eq_true_iff.mpr hm] at h2
      cases h2
    · intro hm
      rw [contains_eq_true_iff.mpr hm] at h3
      cases h3
  · rintro ⟨h1, h2, h3⟩
    refine ⟨⟨h1, ?_⟩, ?_⟩
    · cases hx : stdLib.contains imp
      · rfl
      · exact absurd (contains_eq_true_iff.mp hx) h2
    · cases hx : locals.contains imp
      · rfl
      · exact absurd (contains_eq_true_iff.mp hx) h3

theorem mem_scan_python_files {p : Project} {x : String} :
    x ∈ FirstEdition.scan_python_files p ↔
      ∃ e ∈ p.entries, FirstEdition.visited e = true ∧
        x ∈ FirstEdition.entryImports e := by
  unfold FirstEdition.scan_python_files
  simp only [List.mem_flatten, List.mem_map, List.mem_filter]
  constructor
  · rintro ⟨l, ⟨e, ⟨he, hv⟩, rfl⟩, hx⟩
    exact ⟨e, he, hv, hx⟩
  · rintro ⟨e, he, hv, hx⟩
    exact ⟨FirstEdition.entryImports e, ⟨e, ⟨he, hv⟩, rfl⟩, hx⟩

theorem mem_find_local_modules {p : Project} {name : String} :
    name ∈ FirstEdition.find_local_modules p ↔
      name = p.rootName ∨
      ∃ e ∈ p.entries, (e.files.map PyFile.name).contains "__init__.py" = true ∧
        FirstEdition.dirBasename p.rootName e = name := by
  unfold FirstEdition.find_local_modules
  simp only [List.mem_append, List.mem_map, List.mem_filter, List.mem_singleton]
  constructor
  · rintro (⟨e, ⟨he, hi⟩, rfl⟩ | h)
    · exact Or.inr ⟨e, he, hi, rfl⟩
    · exact Or.inl h
  · rintro (h | ⟨e, he, hi, rfl⟩)
    · exact Or.inr h
    · exact Or.inl ⟨e, ⟨he, hi⟩, rfl⟩

theorem mem_external_imports {stdLib : List String} {p : Project} {imp : String} :
    imp ∈ FirstEdition.external_imports stdLib p ↔
      imp ∈ FirstEdition.discovered_imports p ∧ imp ≠ "" ∧
      imp ∉ stdLib ∧ imp ∉ FirstEdition.find_local_modules p := by
  unfold FirstEdition.external_imports
  rw [List.mem_filter]
  rw [keepCandidate_iff]

theorem discovered_imports_ext {p₁ p₂ : Project}
    (hent : ∀ e, e ∈ p₁.entries ↔ e ∈ p₂.entries)
    (hdj : FirstEdition.scan_django_settings p₁
         = FirstEdition.scan_django_settings p₂) :
    ∀ x, x ∈ FirstEdition.discovered_imports p₁
       ↔ x ∈ FirstEdition.discovered_imports p₂ := by
  intro x
  unfold FirstEdition.discovered_imports
  rw [List.mem_append, List.mem_append, hdj]
  apply or_congr _ Iff.rfl
  rw [mem_scan_python_files, mem_scan_python_files]
  constructor
  · rintro ⟨e, he, hv, hx⟩
    exact ⟨e, (hent e).mp he, hv, hx⟩
  · rintro ⟨e, he, hv, hx⟩
    exact ⟨e, (hent e).mpr he, hv, hx⟩

theorem find_local_modules_ext {p₁ p₂ : Project}
    (hroot : p₁.rootName = p₂.rootName)
    (hent : ∀ e, e ∈ p₁.entries ↔ e ∈ p₂.entries) :
    ∀ x, x ∈ FirstEdition.find_local_modules p₁
       ↔ x ∈ FirstEdition.find_local_modules p₂ := by
  intro x
  rw [mem_find_local_modules, mem_find_local_modules, hroot]
  apply or_congr Iff.rfl
  constructor
  · rintro ⟨e, he, hi, hb⟩
    exact ⟨e, (hent e).mp he, hi, hb⟩
  · rintro ⟨e, he, hi, hb⟩
    exact ⟨e, (hent e).mpr he, hi, hb⟩

theorem external_imports_ext {stdLib : List String} {p₁ p₂ : Project}
    (hroot : p₁.rootName = p₂.rootName)
    (hent : ∀ e, e ∈ p₁.entries ↔ e ∈ p₂.entries)
    (hdj : FirstEdition.scan_django_settings p₁
         = FirstEdition.scan_django_settings p₂) :
    ∀ x, x ∈ FirstEdition.external_imports stdLib p₁
       ↔ x ∈ FirstEdition.external_imports stdLib p₂ := by
  intro x
  rw [mem_external_imports, mem_external_imports]
  have h1 := discovered_imports_ext hent hdj x
  have h2 := find_local_modules_ext hroot hent x
  tauto

theorem run_ext (stdLib : List String) (env : PkgEnv) (toolOrder : List String)
    {p₁ p₂ : Project} (hroot : p₁.rootName = p₂.rootName)
    (hent : ∀ e, e ∈ p₁.entries ↔ e ∈ p₂.entries)
    (hdj : FirstEdition.scan_django_settings p₁
         = FirstEdition.scan_django_settings p₂) :
    FirstEdition.run stdLib env toolOrder p₁
      = FirstEdition.run stdLib env toolOrder p₂ := by
  unfold FirstEdition.run
  rw [pySortedSet_ext (external_imports_ext hroot hent hdj)]

theorem mem_collectStmtImports :
    ∀ {stmts : List Stmt} {x : String},
      x ∈ collectStmtImports stmts ↔
        (∃ names, Stmt.importStmt names ∈ stmts ∧
           ∃ n ∈ names, headSegment n = x) ∨
        (∃ m, Stmt.importFrom 0 (some m) ∈ stmts ∧ m ≠ "" ∧ headSegment m = x)
  | [], x => by simp [collectStmtImports]
  | Stmt.importStmt names :: rest, x => by
    rw [show collectStmtImports (Stmt.importStmt names :: rest)
        = names.map headSegment ++ collectStmtImports rest from rfl]
    rw [List.mem_append, mem_collectStmtImports]
    simp only [List.mem_cons, List.mem_map]
    constructor
    · rintro (⟨n, hn, rfl⟩ | ⟨ns, hns, n, hn, rfl⟩ | ⟨m, hm, hne, rfl⟩)
      · exact Or.inl ⟨names, Or.inl rfl, n, hn, rfl⟩
      · exact Or.inl ⟨ns, Or.inr hns, n, hn, rfl⟩
      · exact Or.inr ⟨m, Or.inr hm, hne, rfl⟩
    · rintro (⟨ns, hns | hns, n, hn, rfl⟩ | ⟨m, hm | hm, hne, rfl⟩)
      · cases hns
        exact Or.inl ⟨n, hn, rfl⟩
      · exact Or.inr (Or.inl ⟨ns, hns, n, hn, rfl⟩)
      · cases hm
      · exact Or.inr (Or.inr ⟨m, hm, hne, rfl⟩)
  | Stmt.importFrom level mod :: rest, x => by
    rw [show collectStmtImports (Stmt.importFrom level mod :: rest)
        = (if level > 0 then []
           else match mod with
             | some m => if m = "" then [] else [headSegment m]
             | none => []) ++ collectStmtImports rest from rfl]
    rw [List.mem_append, mem_collectStmtImports]
    simp only [List.mem_cons]
    constructor
    · rintro (hhead | ⟨ns, hns, n, hn, rfl⟩ | ⟨m, hm, hne, rfl⟩)
      · rcases Nat.eq_zero_or_pos level with hl | hl
        · subst hl
          rw [if_neg (by omega)] at hhead
          cases mod with
          | none => cases hhead
          | some m =>
            rw [show (match some m with
                | some mm => if mm = "" then [] else [headSegment mm]
                | none => ([] : List String))
              = if m = "" then [] else [headSegment m] from rfl] at hhead
            by_cases hme : m = ""
            · rw [if_pos hme] at hhead
              cases hhead
            · rw [if_neg hme] at hhead
              rcases List.mem_singleton.mp hhead with rfl
              exact Or.inr ⟨m, Or.inl rfl, hme, rfl⟩
        · rw [if_pos hl] at hhead
          cases hhead
      · exact Or.inl ⟨ns, Or.inr hns, n, hn, rfl⟩
      · exact Or.inr ⟨m, Or.inr hm, hne, rfl⟩
    · rintro (⟨ns, hns | hns, n, hn, rfl⟩ | ⟨m, hm | hm, hne, rfl⟩)
      · cases hns
      · exact Or.inr (Or.inl ⟨ns, hns, n, hn, rfl⟩)
      · have hl : level = 0 := (Stmt.importFrom.inj hm.symm).1
        have hmod : mod = some m := (Stmt.importFrom.inj hm.symm).2
        subst hl
        subst hmod
        apply Or.inl
        rw [if_neg (by omega)]
        rw [show (match some m with
            | some mm => if mm = "" then [] else [headSegment mm]
            | none => ([] : List String))
          = if m = "" then [] else [headSegment m] from rfl]
        rw [if_neg hne]
        exact List.mem_singleton.mpr rfl
      · exact Or.inr (Or.inr ⟨m, hm, hne, rfl⟩)
  | Stmt.assign targets elts :: rest, x => by
    rw [show collectStmtImports (Stmt.assign targets elts :: rest)
        = collectStmtImports rest from rfl]
    rw [mem_collectStmtImports]
    simp only [List.mem_cons]
    constructor
    · rintro (⟨ns, hns, hrest⟩ | ⟨m, hm, hrest⟩)
      · exact Or.inl ⟨ns, Or.inr hns, hrest⟩
      · exact Or.inr ⟨m, Or.inr hm, hrest⟩
    · rintro (⟨ns, hns | hns, hrest⟩ | ⟨m, hm | hm, hrest⟩)
      · cases hns
      · exact Or.inl ⟨ns, hns, hrest⟩
      · cases hm
      · exact Or.inr ⟨m, hm, hrest⟩
  | Stmt.other :: rest, x => by
    rw [show collectStmtImports (Stmt.other :: rest)
        = collectStmtImports rest from rfl]
    rw [mem_collectStmtImports]
    simp only [List.mem_cons]
    constructor
    · rintro (⟨ns, hns, hrest⟩ | ⟨m, hm, hrest⟩)
      · exact Or.inl ⟨ns, Or.inr hns, hrest⟩
      · exact Or.inr ⟨m, Or.inr hm, hrest⟩
    · rintro (⟨ns, hns | hns, hrest⟩ | ⟨m, hm | hm, hrest⟩)
      · cases hns
      · exact Or.inl ⟨ns, hns, hrest⟩
      · cases hm
      · exact Or.inr ⟨m, hm, hrest⟩

/-! ### Concrete projects and package indexes for counterexamples and
witnesses -/

/-- A minimal standard-library name set for the concrete runs below. -/
def stdLibEx : List String := ["os", "sys"]

/-- A metadata index in which nothing is installed. -/
def envEmpty : PkgEnv := fun _ => none

/-- A metadata index in which only the distribution `gunicorn` is
installed. -/
def envGunicorn : PkgEnv := fun n =>
  if n = "gunicorn" then some ("gunicorn", some "21.2.0") else none

/-- A metadata index in which only `django-cors-headers` is installed. -/
def envCors : PkgEnv := fun n =>
  if n = "django-cors-headers" then some ("django-cors-headers", some "4.3.1")
  else none

/-- A metadata index in which only `mypkg` is installed. -/
def envMypkg : PkgEnv := fun n =>
  if n = "mypkg" then some ("mypkg", some "1.0.0") else none

/-- A project whose root holds `app.py` (with `import gunicorn`) and a local
package directory `gunicorn/` marked by `__init__.py`. -/
def projGunicorn : Project :=
  ⟨"proj", ["proj"],
   [⟨[], [⟨"app.py", true, "", some [Stmt.importStmt ["gunicorn"]]⟩]⟩,
    ⟨["gunicorn"], [⟨"__init__.py", true, "", some []⟩]⟩]⟩

/-- A project containing no files at all. -/
def projNoFiles : Project := ⟨"proj", ["proj"], [⟨[], []⟩]⟩

/-- A project with one source file at the root. -/
def projOneFile : Project :=
  ⟨"proj", ["proj"],
   [⟨[], [⟨"app.py", true, "", some [Stmt.importStmt ["os"]]⟩]⟩]⟩

/-- Walk entries for the settings-discovery-order counterexample: the root
holds `manage.py`; `a/` and `b/` each hold a parseable `settings.py`
declaring different `INSTALLED_APPS`. -/
def entryRootManage : DirEntry := ⟨[], [⟨"manage.py", true, "", some []⟩]⟩

def entrySettingsA : DirEntry :=
  ⟨["a"], [⟨"settings.py", true, "",
    some [Stmt.assign ["INSTALLED_APPS"] ["corsheaders"]]⟩]⟩

def entrySettingsB : DirEntry :=
  ⟨["b"], [⟨"settings.py", true, "",
    some [Stmt.assign ["INSTALLED_APPS"] []]⟩]⟩

/-- The settings project walked with `a/` before `b/`. -/
def projSettingsAB : Project :=
  ⟨"proj", ["proj"], [entryRootManage, entrySettingsA, entrySettingsB]⟩

/-- The same tree walked with `b/` before `a/`. -/
def projSettingsBA : Project :=
  ⟨"proj", ["proj"], [entryRootManage, entrySettingsB, entrySettingsA]⟩

/-- Walk entries of a settings-free two-directory tree, for the
order-irrelevance witness. -/
def entryRootApp : DirEntry :=
  ⟨[], [⟨"app.py", true, "", some [Stmt.importStmt ["corsheaders"]]⟩]⟩

def entryUtilDir : DirEntry :=
  ⟨["util"], [⟨"helpers.py", true, "", some [Stmt.importFrom 0 (some "os.path")]⟩]⟩

def projPermA : Project := ⟨"proj", ["proj"], [entryRootApp, entryUtilDir]⟩

def projPermB : Project := ⟨"proj", ["proj"], [entryUtilDir, entryRootApp]⟩

/-- A project with a package directory buried inside `.venv` (excluded from
the source scan but not from local-module discovery) and a root source file
with an import of that package name. -/
def projVenvPkg : Project :=
  ⟨"proj", ["proj"],
   [⟨[], [⟨"app.py", true, "", some [Stmt.importStmt ["mypkg"]]⟩]⟩,
    ⟨[".venv", "lib", "mypkg"], [⟨"__init__.py", true, "", some []⟩]⟩]⟩

/-- The known-tools set iterated in a different order (first two elements
swapped): one of the other iteration orders a hash-randomized Python set can
produce. -/
def toolOrderSwapped : List String :=
  ["uvicorn", "gunicorn", "daphne", "whitenoise", "black",
   "isort", "flake8", "mypy", "pytest", "pip-tools"]

/-- A metadata index with mismatched metadata: the distribution looked up as
`gunicorn` reports the Name `uvicorn`, and the one looked up as `uvicorn`
reports `whitenoise`.  (The index never guarantees that the reported Name
equals the lookup key; this index merely exercises that freedom.) -/
def envMismatched : PkgEnv := fun n =>
  if n = "gunicorn" then some ("uvicorn", some "1.0")
  else if n = "uvicorn" then some ("whitenoise", some "2.0")
  else none

/-- A metadata index whose reported names are self-consistent (looking up a
reported name returns it unchanged) but contains two distinct reported names
`AA` and `aA` that agree case-insensitively. -/
def envCaseTwins : PkgEnv := fun n =>
  if n = "gunicorn" ∨ n = "AA" then some ("AA", some "1.0")
  else if n = "uvicorn" ∨ n = "aA" then some ("aA", some "2.0")
  else none

/-- A metadata index with one installed distribution whose Version metadata
is absent (`dist.version` is `None`). -/
def envNoVersion : PkgEnv := fun n =>
  if n = "foo" then some ("foo", none) else none

/-! ### The tools pass under a well-formed metadata index -/

/-- Under a stable index (looking up a reported name reports that name with
the same version), every entry the resolution loop stores is index-faithful:
looking up its key reports exactly the stored pair. -/
theorem faithful_resolveGo (env : PkgEnv) (nameMap : List (String × String))
    (hstable : ∀ t p v, env t = some (p, v) → env p = some (p, v)) :
    ∀ (cands : List String) (reqs : List (String × Option String))
      (unres : List String),
      (∀ pv ∈ reqs, env pv.1 = some pv) →
      ∀ pv ∈ (resolveGo env nameMap cands reqs unres).1, env pv.1 = some pv
  | [], _, _, h => h
  | c :: rest, reqs, unres, h => by
    cases henv : get_package_info env (mapGet nameMap c) with
    | none =>
      simp only [resolveGo, henv]
      exact faithful_resolveGo env nameMap hstable rest reqs _ h
    | some pv =>
      simp only [resolveGo, henv]
      by_cases hc : (reqs.map Prod.fst).contains pv.1
      · rw [if_pos hc]
        exact faithful_resolveGo env nameMap hstable rest reqs unres h
      · rw [if_neg hc]
        apply faithful_resolveGo env nameMap hstable rest _ unres
        intro qv hqv
        rcases List.mem_append.mp hqv with hq | hq
        · exact h qv hq
        · rcases List.mem_singleton.mp hq with rfl
          exact hstable _ pv.1 pv.2 henv

/-- A dict assignment whose key is already present in an index-faithful dict
with its index-reported pair changes nothing. -/
theorem dictInsert_eq_self (env : PkgEnv) (rs : List (String × Option String))
    (p : String) (v : Option String)
    (hfaith : ∀ pv ∈ rs, env pv.1 = some pv)
    (henvp : env p = some (p, v))
    (hc : (rs.map Prod.fst).contains p = true) :
    dictInsert rs p v = rs := by
  unfold dictInsert
  rw [if_pos hc]
  have hpt : ∀ e ∈ rs, (if e.1 = p then (p, v) else e) = e := by
    intro e he
    by_cases hep : e.1 = p
    · rw [if_pos hep]
      have h1 : env p = some e := hep ▸ hfaith e he
      exact (Option.some.inj (henvp.symm.trans h1))
    · rw [if_neg hep]
  calc rs.map (fun e => if e.1 = p then (p, v) else e)
      = rs.map id := List.map_congr_left hpt
    _ = rs := List.map_id rs

/-- Under a stable index, membership in the tools-pass output: the initial
entries plus, for every iterated tool that is not already an initial key,
the pair the index reports for it, unless its reported name was an initial
key.  The characterization mentions the tools list only through membership,
so the output of the pass — as a set of pairs — does not depend on the
iteration order of the Python set. -/
theorem mem_toolsPass (env : PkgEnv)
    (hstable : ∀ t p v, env t = some (p, v) → env p = some (p, v)) :
    ∀ (tools : List String) (rs : List (String × Option String)),
      (∀ pv ∈ rs, env pv.1 = some pv) →
      ∀ pv : String × Option String,
        pv ∈ FirstEdition.toolsPass env tools rs ↔
          pv ∈ rs ∨ ∃ t ∈ tools, t ∉ rs.map Prod.fst ∧ env t = some pv ∧
            pv.1 ∉ rs.map Prod.fst
  | [], rs, _, pv => by simp [FirstEdition.toolsPass]
  | t :: rest, rs, hfaith, pv => by
    have hstep : FirstEdition.toolsPass env (t :: rest) rs
        = FirstEdition.toolsPass env rest
            (if (rs.map Prod.fst).contains t then rs
             else match get_package_info env t with
               | some qw => dictInsert rs qw.1 qw.2
               | none => rs) := by
      simp only [FirstEdition.toolsPass, List.foldl_cons]
    rw [hstep]
    by_cases hc : (rs.map Prod.fst).contains t
    · rw [if_pos hc]
      rw [mem_toolsPass env hstable rest rs hfaith pv]
      have htk : t ∈ rs.map Prod.fst := contains_eq_true_iff.mp hc
      constructor
      · rintro (h | ⟨s, hs, h1, h2, h3⟩)
        · exact Or.inl h
        · exact Or.inr ⟨s, List.mem_cons_of_mem _ hs, h1, h2, h3⟩
      · rintro (h | ⟨s, hs, h1, h2, h3⟩)
        · exact Or.inl h
        · rcases List.mem_cons.mp hs with rfl | hs₂
          · exact absurd htk h1
          · exact Or.inr ⟨s, hs₂, h1, h2, h3⟩
    · rw [if_neg hc]
      have htk : t ∉ rs.map Prod.fst := fun hx => hc (contains_eq_true_iff.mpr hx)
      cases henv : get_package_info env t with
      | none =>
        rw [show (match (none : Option (String × Option String)) with
            | some qw => dictInsert rs qw.1 qw.2 | none => rs) = rs from rfl]
        rw [mem_toolsPass env hstable rest rs hfaith pv]
        constructor
        · rintro (h | ⟨s, hs, h1, h2, h3⟩)
          · exact Or.inl h
          · exact Or.inr ⟨s, List.mem_cons_of_mem _ hs, h1, h2, h3⟩
        · rintro (h | ⟨s, hs, h1, h2, h3⟩)
          · exact Or.inl h
          · rcases List.mem_cons.mp hs with heq | hs₂
            · rw [heq] at h2
              exact Option.noConfusion
                ((show env t = none from henv).symm.trans h2)
            · exact Or.inr ⟨s, hs₂, h1, h2, h3⟩
      | some qw =>
        rw [show (match (some qw : Option (String × Option String)) with
            | some qw2 => dictInsert rs qw2.1 qw2.2 | none => rs)
          = dictInsert rs qw.1 qw.2 from rfl]
        have henvq : env qw.1 = some qw := hstable t qw.1 qw.2 henv
        by_cases hq : qw.1 ∈ rs.map Prod.fst
        · rw [dictInsert_eq_self env rs qw.1 qw.2 hfaith henvq
            (contains_eq_true_iff.mpr hq)]
          rw [mem_toolsPass env hstable rest rs hfaith pv]
          constructor
          · rintro (h | ⟨s, hs, h1, h2, h3⟩)
            · exact Or.inl h
            · exact Or.inr ⟨s, List.mem_cons_of_mem _ hs, h1, h2, h3⟩
          · rintro (h | ⟨s, hs, h1, h2, h3⟩)
            · exact Or.inl h
            · rcases List.mem_cons.mp hs with heq | hs₂
              · rw [heq] at h2
                obtain rfl := Option.some.inj
                  ((show env t = some qw from henv).symm.trans h2)
                exact absurd hq h3
              · exact Or.inr ⟨s, hs₂, h1, h2, h3⟩
        · have hins : dictInsert rs qw.1 qw.2 = rs ++ [qw] := by
            unfold dictInsert
            rw [if_neg (fun hx => hq (contains_eq_true_iff.mp hx))]
          have hfaith₂ : ∀ pv2 ∈ rs ++ [qw], env pv2.1 = some pv2 := by
            intro pv2 hpv2
            rcases List.mem_append.mp hpv2 with h | h
            · exact hfaith pv2 h
            · rcases List.mem_singleton.mp h with rfl
              exact henvq
          rw [hins, mem_toolsPass env hstable rest (rs ++ [qw]) hfaith₂ pv]
          have hkeys : (rs ++ [qw]).map Prod.fst = rs.map Prod.fst ++ [qw.1] := by
            rw [List.map_append]
            rfl
          constructor
          · rintro (h | ⟨s, hs, h1, h2, h3⟩)
            · rcases List.mem_append.mp h with h | h
              · exact Or.inl h
              · rcases List.mem_singleton.mp h with rfl
                exact Or.inr ⟨t, List.mem_cons_self _ _, htk, henv, hq⟩
            · rw [hkeys] at h1 h3
              have h1₂ : s ∉ rs.map Prod.fst :=
                fun hx => h1 (List.mem_append.mpr (Or.inl hx))
              have h3₂ : pv.1 ∉ rs.map Prod.fst :=
                fun hx => h3 (List.mem_append.mpr (Or.inl hx))
              exact Or.inr ⟨s, List.mem_cons_of_mem _ hs, h1₂, h2, h3₂⟩
          · rintro (h | ⟨s, hs, h1, h2, h3⟩)
            · exact Or.inl (List.mem_append.mpr (Or.inl h))
            · rcases List.mem_cons.mp hs with heq | hs₂
              · rw [heq] at h2
                obtain rfl := Option.some.inj
                  ((show env t = some qw from henv).symm.trans h2)
                exact Or.inl (List.mem_append.mpr
                  (Or.inr (List.mem_singleton.mpr rfl)))
              · by_cases hsq : s = qw.1
                · rw [hsq, henvq] at h2
                  obtain rfl := Option.some.inj h2
                  exact Or.inl (List.mem_append.mpr
                    (Or.inr (List.mem_singleton.mpr rfl)))
                · by_cases hpq : pv.1 = qw.1
                  · have hpv : env pv.1 = some pv := hstable s pv.1 pv.2 h2
                    rw [hpq, henvq] at hpv
                    obtain rfl := Option.some.inj hpv
                    exact Or.inl (List.mem_append.mpr
                      (Or.inr (List.mem_singleton.mpr rfl)))
                  · refine Or.inr ⟨s, hs₂, ?_, h2, ?_⟩
                    · rw [hkeys]
                      intro hx
                      rcases List.mem_append.mp hx with hx | hx
                      · exact h1 hx
                      · exact hsq (List.mem_singleton.mp hx)
                    · rw [hkeys]
                      intro hx
                      rcases List.mem_append.mp hx with hx | hx
                      · exact h3 hx
                      · exact hpq (List.mem_singleton.mp hx)

/-- Under a stable index, the tools pass preserves index-faithfulness. -/
theorem faithful_toolsPass (env : PkgEnv)
    (hstable : ∀ t p v, env t = some (p, v) → env p = some (p, v))
    (tools : List String) (rs : List (String × Option String))
    (hfaith : ∀ pv ∈ rs, env pv.1 = some pv) :
    ∀ pv ∈ FirstEdition.toolsPass env tools rs, env pv.1 = some pv := by
  intro pv hpv
  rcases (mem_toolsPass env hstable tools rs hfaith pv).mp hpv with
    h | ⟨t, _, _, h2, _⟩
  · exact hfaith pv h
  · exact hstable t pv.1 pv.2 h2

/-- In a dict with pairwise distinct keys, an entry is determined by its
key. -/
theorem eq_of_mem_of_fst_eq {α β : Type} {l : List (α × β)}
    (hnd : (l.map Prod.fst).Nodup) {a b : α × β}
    (ha : a ∈ l) (hb : b ∈ l) (hab : a.1 = b.1) : a = b := by
  induction l with
  | nil => exact absurd ha (List.not_mem_nil a)
  | cons c t ih =>
    rw [List.map_cons, List.nodup_cons] at hnd
    rcases List.mem_cons.mp ha with rfl | ha₂
    · rcases List.mem_cons.mp hb with rfl | hb₂
      · rfl
      · have hm : b.1 ∈ t.map Prod.fst := List.mem_map.mpr ⟨b, hb₂, rfl⟩
        rw [← hab] at hm
        exact absurd hm hnd.1
    · rcases List.mem_cons.mp hb with rfl | hb₂
      · have hm : a.1 ∈ t.map Prod.fst := List.mem_map.mpr ⟨a, ha₂, rfl⟩
        rw [hab] at hm
        exact absurd hm hnd.1
      · exact ih hnd.2 ha₂ hb₂

/-- Two sorted lists that are permutations of each other agree, provided the
order is antisymmetric on their elements (a local version of
`List.eq_of_perm_of_sorted` for a relation that is not globally
antisymmetric, such as the case-insensitive writer order). -/
theorem sorted_perm_eq {α : Type} {r : α → α → Prop} :
    ∀ {l₁ l₂ : List α}, l₁.Perm l₂ → l₁.Sorted r → l₂.Sorted r →
      (∀ a ∈ l₁, ∀ b ∈ l₂, r a b → r b a → a = b) → l₁ = l₂
  | [], _, hp, _, _, _ => hp.nil_eq
  | a :: t₁, l₂, hp, hs₁, hs₂, hanti => by
    cases l₂ with
    | nil => exact absurd hp.eq_nil (List.cons_ne_nil a t₁)
    | cons b t₂ =>
      have hab : a = b := by
        by_cases h : a = b
        · exact h
        · have ha2 : a ∈ b :: t₂ := hp.mem_iff.mp (List.mem_cons_self a t₁)
          have hb1 : b ∈ a :: t₁ := hp.mem_iff.mpr (List.mem_cons_self b t₂)
          have hat2 : a ∈ t₂ := by
            rcases List.mem_cons.mp ha2 with h₂ | h₂
            · exact absurd h₂ h
            · exact h₂
          have hbt1 : b ∈ t₁ := by
            rcases List.mem_cons.mp hb1 with h₂ | h₂
            · exact absurd h₂.symm h
            · exact h₂
          exact hanti a (List.mem_cons_self a t₁) b (List.mem_cons_self b t₂)
            ((List.sorted_cons.mp hs₁).1 b hbt1)
            ((List.sorted_cons.mp hs₂).1 a hat2)
      subst hab
      have ht : t₁ = t₂ :=
        sorted_perm_eq hp.cons_inv (List.sorted_cons.mp hs₁).2
          (List.sorted_cons.mp hs₂).2
          (fun x hx y hy => hanti x (List.mem_cons_of_mem a hx) y
            (List.mem_cons_of_mem a hy))
      rw [ht]

/-- Iterating the known-tools set in any two orders over the same
index-faithful requirements dict yields byte-identical manifests, provided
the index is stable and its reported names are pairwise distinct
case-insensitively. -/
theorem toolsPass_write_eq (env : PkgEnv)
    (hstable : ∀ t p v, env t = some (p, v) → env p = some (p, v))
    (hlow : ∀ t₁ t₂ q₁ q₂ v₁ v₂, env t₁ = some (q₁, v₁) →
        env t₂ = some (q₂, v₂) → lowerStr q₁ = lowerStr q₂ → q₁ = q₂)
    (tools₁ tools₂ : List String) (htools : ∀ t, t ∈ tools₁ ↔ t ∈ tools₂)
    (rs : List (String × Option String))
    (hfaith : ∀ pv ∈ rs, env pv.1 = some pv)
    (hnodup : (rs.map Prod.fst).Nodup) :
    FirstEdition.write_file (FirstEdition.toolsPass env tools₁ rs)
      = FirstEdition.write_file (FirstEdition.toolsPass env tools₂ rs) := by
  have hmem : ∀ pv, pv ∈ FirstEdition.toolsPass env tools₁ rs
      ↔ pv ∈ FirstEdition.toolsPass env tools₂ rs := by
    intro pv
    rw [mem_toolsPass env hstable tools₁ rs hfaith pv,
        mem_toolsPass env hstable tools₂ rs hfaith pv]
    apply or_congr Iff.rfl
    constructor
    · rintro ⟨t, ht, h1, h2, h3⟩
      exact ⟨t, (htools t).mp ht, h1, h2, h3⟩
    · rintro ⟨t, ht, h1, h2, h3⟩
      exact ⟨t, (htools t).mpr ht, h1, h2, h3⟩
  have hnd₁ := keys_nodup_toolsPass env tools₁ rs hnodup
  have hnd₂ := keys_nodup_toolsPass env tools₂ rs hnodup
  have hperm : (FirstEdition.toolsPass env tools₁ rs).Perm
      (FirstEdition.toolsPass env tools₂ rs) := by
    rw [List.perm_ext_iff_of_nodup (hnd₁.of_map) (hnd₂.of_map)]
    exact hmem
  have hfaith₁ := faithful_toolsPass env hstable tools₁ rs hfaith
  have hfaith₂ := faithful_toolsPass env hstable tools₂ rs hfaith
  have hsorteq : sortReqs (FirstEdition.toolsPass env tools₁ rs)
      = sortReqs (FirstEdition.toolsPass env tools₂ rs) := by
    apply sorted_perm_eq
    · exact ((List.perm_insertionSort reqLe _).trans hperm).trans
        (List.perm_insertionSort reqLe _).symm
    · exact List.sorted_insertionSort reqLe _
    · exact List.sorted_insertionSort reqLe _
    · intro a ha b hb hab hba
      have ha₂ : a ∈ FirstEdition.toolsPass env tools₁ rs :=
        (List.perm_insertionSort reqLe _).mem_iff.mp ha
      have hb₂ : b ∈ FirstEdition.toolsPass env tools₂ rs :=
        (List.perm_insertionSort reqLe _).mem_iff.mp hb
      have hb₃ : b ∈ FirstEdition.toolsPass env tools₁ rs := (hmem b).mpr hb₂
      have hldata : (lowerStr a.1).data = (lowerStr b.1).data :=
        charListLe_antisymm hab hba
      have hlce : lowerStr a.1 = lowerStr b.1 := congrArg String.mk hldata
      have hfst : a.1 = b.1 :=
        hlow a.1 b.1 a.1 b.1 a.2 b.2 (hfaith₁ a ha₂) (hfaith₂ b hb₂) hlce
      exact eq_of_mem_of_fst_eq hnd₁ ha₂ hb₃ hfst
  unfold FirstEdition.write_file
  rw [hsorteq]

/-! ### Claim theorems -/

/-- C1, counterexample: in `FirstEdition.py`, a discovered candidate name
(`gunicorn`) that equals a discovered local module name (the package
directory `gunicorn/`) still ends up in the final requirement mapping,
resolved from that very name by the `KNOWN_CLI_AND_CONFIG_TOOLS` pass, when
a same-named distribution is installed — contradicting the claim that such a
name is never resolved to an external distribution. -/
theorem C1_counterexample :
    "gunicorn" ∈ FirstEdition.find_local_modules projGunicorn ∧
    "gunicorn" ∈ FirstEdition.scan_python_files projGunicorn ∧
    ("gunicorn", some "21.2.0") ∈
      FirstEdition.run stdLibEx envGunicorn
        FirstEdition.KNOWN_CLI_AND_CONFIG_TOOLS projGunicorn := by
  refine ⟨by decide, by decide, by decide⟩

/-- C1 (amended): a candidate name that equals a discovered local module
name is removed by the stdlib/local filter, so the import-resolution pass of
`run` (which processes exactly the sorted filtered candidates) never looks
it up and never resolves an external distribution from it; the
`KNOWN_CLI_AND_CONFIG_TOOLS` pass, however, checks its fixed tool names
against the metadata index regardless of local-module collisions and can
still add a same-named installed distribution. -/
theorem C1_local_candidate_skipped_by_import_pass
    (stdLib : List String) (p : Project) (imp : String)
    (h : imp ∈ FirstEdition.find_local_modules p) :
    imp ∉ pySortedSet (FirstEdition.external_imports stdLib p) := by
  rw [mem_pySortedSet]
  intro hx
  exact (mem_external_imports.mp hx).2.2.2 h

/-- C1, witness: the amended statement at the gunicorn project. -/
theorem C1_witness :
    "gunicorn" ∈ FirstEdition.find_local_modules projGunicorn ∧
    "gunicorn" ∉ pySortedSet (FirstEdition.external_imports stdLibEx projGunicorn) :=
  ⟨by decide,
   C1_local_candidate_skipped_by_import_pass stdLibEx projGunicorn "gunicorn"
     (by decide)⟩

/-- C2: the requirements mapping built by the shared resolution loop (and
still after the known-tools pass in any iteration order) has pairwise
distinct keys — the names reported by the metadata index, not the lookup
keys — and the value recorded under a reported name is the version carried
by the *first* candidate in processing order that resolved to it; later
candidates hitting the same reported name are ignored.  The inferential
loop of the inferential variant is the same function, so the same facts apply to it. -/
theorem C2_dedup_first_found_wins (env : PkgEnv)
    (nameMap : List (String × String)) (cands : List String)
    (toolOrder : List String) (P : String) :
    ((resolveCandidates env nameMap cands).1.map Prod.fst).Nodup ∧
    ((FirstEdition.toolsPass env toolOrder
        (resolveCandidates env nameMap cands).1).map Prod.fst).Nodup ∧
    (resolveCandidates env nameMap cands).1.lookup P
      = firstHit env nameMap cands P ∧
    ∀ out, ((GeminiWay.parse_and_resolve_versions env out).1.map Prod.fst).Nodup := by
  have hnd : ((resolveCandidates env nameMap cands).1.map Prod.fst).Nodup :=
    keys_nodup_resolveGo env nameMap cands [] [] (by simp)
  refine ⟨hnd, keys_nodup_toolsPass env toolOrder _ hnd, ?_, ?_⟩
  · have h := lookup_resolveGo env nameMap P cands [] []
    simpa [resolveCandidates, List.lookup, Option.or] using h
  · intro out
    unfold GeminiWay.parse_and_resolve_versions
    by_cases hout : out = ""
    · simp [hout]
    · rw [if_neg hout]
      exact keys_nodup_resolveGo env GeminiWay.IMPORT_TO_PYPI_MAP _ [] [] (by simp)

/-- C3, counterexample: the syntactic variant does *not* abort when no
source files exist — on a project with no files at all, `FirstEdition.main`
completes with exit status 0 and writes a manifest consisting of just the
header. -/
theorem C3_counterexample :
    FirstEdition.main [] envEmpty FirstEdition.KNOWN_CLI_AND_CONFIG_TOOLS
        projNoFiles
      = (0, some FirstEdition.FE_HEADER) := by
  decide

/-- C3 (amended): only the inferential variant treats an empty source tree
as fatal: with the API key present and no ingestible source file,
`GeminiWay.main` exits 1 without writing a manifest, while
`FirstEdition.main` always exits 0 (it has no abort path) and always writes
a manifest. -/
theorem C3_no_sources_fatal_in_inferential_variant_only
    (env : PkgEnv) (apiKey : String) (response : Except String String)
    (p : Project) (hkey : apiKey ≠ "")
    (hfiles : GeminiWay.geminiCodeFiles p = []) :
    GeminiWay.main env apiKey response p = (1, none, []) ∧
    ∀ (stdLib : List String) (env₂ : PkgEnv) (toolOrder : List String)
      (q : Project), (FirstEdition.main stdLib env₂ toolOrder q).1 = 0 := by
  constructor
  · have herr : GeminiWay.geminiRun env apiKey response p
        = Except.error "No Python source files found to analyze." := by
      unfold GeminiWay.geminiRun
      rw [if_neg hkey, if_pos hfiles]
    unfold GeminiWay.main
    rw [herr]
  · intro stdLib env₂ toolOrder q
    rfl

/-- C3, witness: the amended statement at a fileless project. -/
theorem C3_witness :
    GeminiWay.main envEmpty "key" (Except.ok "x") projNoFiles = (1, none, []) ∧
    (FirstEdition.main [] envEmpty [] projNoFiles).1 = 0 :=
  ⟨(C3_no_sources_fatal_in_inferential_variant_only envEmpty "key"
      (Except.ok "x") projNoFiles (by decide) (by decide)).1,
   (C3_no_sources_fatal_in_inferential_variant_only envEmpty "key"
      (Except.ok "x") projNoFiles (by decide) (by decide)).2
     [] envEmpty [] projNoFiles⟩

/-- C4, counterexample, in three parts over the same unchanged tree and
unchanged index per part.  (1) File-discovery order: two walks of the same
tree (entry lists that are permutations of one another) in which a different
Django settings directory is encountered first produce different manifests,
because `_scan_django_settings` harvests only the first matching settings
file.  (2) Set-iteration order: two iteration orders of the
`KNOWN_CLI_AND_CONFIG_TOOLS` set produce different manifests under an index
whose reported Name differs from the lookup key — the first-order run adds
`uvicorn` as a key, which makes the later `uvicorn` tool lookup skip, while
the other order performs both lookups.  (3) Set-iteration order again, under
a self-consistent index with two reported names that agree only
case-insensitively: the case-insensitive sort ties, the stable sort falls
back to insertion order, and the manifests differ byte-wise. -/
theorem C4_counterexample :
    (projSettingsAB.rootName = projSettingsBA.rootName ∧
     projSettingsAB.entries.Perm projSettingsBA.entries ∧
     FirstEdition.write_file (FirstEdition.run [] envCors
         FirstEdition.KNOWN_CLI_AND_CONFIG_TOOLS projSettingsAB)
       ≠ FirstEdition.write_file (FirstEdition.run [] envCors
         FirstEdition.KNOWN_CLI_AND_CONFIG_TOOLS projSettingsBA)) ∧
    (FirstEdition.KNOWN_CLI_AND_CONFIG_TOOLS.Perm toolOrderSwapped ∧
     FirstEdition.write_file (FirstEdition.run [] envMismatched
         FirstEdition.KNOWN_CLI_AND_CONFIG_TOOLS projNoFiles)
       ≠ FirstEdition.write_file (FirstEdition.run [] envMismatched
         toolOrderSwapped projNoFiles)) ∧
    FirstEdition.write_file (FirstEdition.run [] envCaseTwins
        FirstEdition.KNOWN_CLI_AND_CONFIG_TOOLS projNoFiles)
      ≠ FirstEdition.write_file (FirstEdition.run [] envCaseTwins
        toolOrderSwapped projNoFiles) := by
  refine ⟨⟨rfl, by decide, by decide⟩, ⟨by decide, by decide⟩, by decide⟩

/-- C4 (amended): with the project tree and the installed-package index
unchanged, two runs produce byte-identical manifests provided (a) both runs
harvest the same framework-settings file, and (b) the index is well-formed —
looking up a reported name returns that name with the same version, and
distinct reported names differ case-insensitively.  Under (a) and (b) the
manifest is independent of the file-discovery order (permuting walk entries
changes neither candidate set nor local-module set nor any manifest byte)
*and* of the hash-randomized iteration order of the known-tools set.  Each
proviso is forced by the corresponding part of the counterexample: without
(a), the first-match settings harvest depends on walk order; without (b),
the known-tools pass depends on set-iteration order.  The first conjunct
states discovery-order independence alone, with no condition on the index,
for a fixed iteration order. -/
theorem C4_manifest_order_independent
    (stdLib : List String) (env : PkgEnv)
    (toolOrder₁ toolOrder₂ : List String) (p₁ p₂ : Project)
    (hroot : p₁.rootName = p₂.rootName)
    (hent : ∀ e, e ∈ p₁.entries ↔ e ∈ p₂.entries)
    (hdj : FirstEdition.scan_django_settings p₁
         = FirstEdition.scan_django_settings p₂) :
    (FirstEdition.write_file (FirstEdition.run stdLib env toolOrder₁ p₁)
       = FirstEdition.write_file (FirstEdition.run stdLib env toolOrder₁ p₂)) ∧
    ((∀ t, t ∈ toolOrder₁ ↔ t ∈ toolOrder₂) →
     (∀ t p v, env t = some (p, v) → env p = some (p, v)) →
     (∀ t₁ t₂ q₁ q₂ v₁ v₂, env t₁ = some (q₁, v₁) → env t₂ = some (q₂, v₂) →
        lowerStr q₁ = lowerStr q₂ → q₁ = q₂) →
     FirstEdition.write_file (FirstEdition.run stdLib env toolOrder₁ p₁)
       = FirstEdition.write_file (FirstEdition.run stdLib env toolOrder₂ p₂)) := by
  constructor
  · rw [run_ext stdLib env toolOrder₁ hroot hent hdj]
  · intro htools hstable hlow
    have hcand : pySortedSet (FirstEdition.external_imports stdLib p₁)
        = pySortedSet (FirstEdition.external_imports stdLib p₂) :=
      pySortedSet_ext (external_imports_ext hroot hent hdj)
    unfold FirstEdition.run
    rw [hcand]
    exact toolsPass_write_eq env hstable hlow toolOrder₁ toolOrder₂ htools _
      (faithful_resolveGo env FirstEdition.IMPORT_TO_PYPI_MAP hstable
        (pySortedSet (FirstEdition.external_imports stdLib p₂)) [] []
        (by simp))
      (keys_nodup_resolveGo env FirstEdition.IMPORT_TO_PYPI_MAP
        (pySortedSet (FirstEdition.external_imports stdLib p₂)) [] []
        (by simp))

/-- C4, witness: the amended statement on a two-directory, settings-free
tree walked in both orders, with the known-tools set also iterated in two
different orders over an index holding one distribution. -/
theorem C4_witness :
    FirstEdition.write_file (FirstEdition.run stdLibEx envCors
        FirstEdition.KNOWN_CLI_AND_CONFIG_TOOLS projPermA)
      = FirstEdition.write_file (FirstEdition.run stdLibEx envCors
        FirstEdition.KNOWN_CLI_AND_CONFIG_TOOLS projPermB) ∧
    FirstEdition.write_file (FirstEdition.run stdLibEx envCors
        FirstEdition.KNOWN_CLI_AND_CONFIG_TOOLS projPermA)
      = FirstEdition.write_file (FirstEdition.run stdLibEx envCors
        toolOrderSwapped projPermB) := by
  have h := C4_manifest_order_independent stdLibEx envCors
    FirstEdition.KNOWN_CLI_AND_CONFIG_TOOLS toolOrderSwapped projPermA projPermB
    rfl
    (by
      intro e
      constructor
      · intro hm
        rcases List.mem_cons.mp hm with hm | hm
        · exact hm ▸ (by decide : entryRootApp ∈ projPermB.entries)
        · rcases List.mem_cons.mp hm with hm | hm
          · exact hm ▸ (by decide : entryUtilDir ∈ projPermB.entries)
          · cases hm
      · intro hm
        rcases List.mem_cons.mp hm with hm | hm
        · exact hm ▸ (by decide : entryUtilDir ∈ projPermA.entries)
        · rcases List.mem_cons.mp hm with hm | hm
          · exact hm ▸ (by decide : entryRootApp ∈ projPermA.entries)
          · cases hm)
    (by decide)
  refine ⟨h.1, h.2 ?_ ?_ ?_⟩
  · exact fun t =>
      (show FirstEdition.KNOWN_CLI_AND_CONFIG_TOOLS.Perm toolOrderSwapped
        by decide).mem_iff
  · intro t p v htp
    simp only [envCors] at htp ⊢
    by_cases ht : t = "django-cors-headers"
    · rw [if_pos ht] at htp
      have he := Option.some.inj htp
      rw [Prod.mk.injEq] at he
      obtain ⟨rfl, rfl⟩ := he
      simp
    · rw [if_neg ht] at htp
      exact Option.noConfusion htp
  · intro t₁ t₂ q₁ q₂ v₁ v₂ h₁ h₂ _
    simp only [envCors] at h₁ h₂
    by_cases ht₁ : t₁ = "django-cors-headers"
    · rw [if_pos ht₁] at h₁
      by_cases ht₂ : t₂ = "django-cors-headers"
      · rw [if_pos ht₂] at h₂
        have e₁ := Option.some.inj h₁
        have e₂ := Option.some.inj h₂
        rw [Prod.mk.injEq] at e₁ e₂
        rw [← e₁.1, ← e₂.1]
      · rw [if_neg ht₂] at h₂
        exact Option.noConfusion h₂
    · rw [if_neg ht₁] at h₁
      exact Option.noConfusion h₁

/-- C5, counterexample: the writer of the inferential variant has no
bare-name fallback.  A run whose one installed distribution carries no
Version metadata (`dist.version` is `None`) produces the manifest line
`foo==None`, not the bare name the claim requires when no version is known;
the full pipeline reaches that line, and the same mapping given to the
syntactic writer does produce the bare name. -/
theorem C5_counterexample :
    GeminiWay.main envNoVersion "key" (Except.ok "foo") projOneFile
      = (0, some (GeminiWay.GEMINI_HEADER ++ "foo==None\n"), []) ∧
    GeminiWay.write_file [("foo", none)]
      ≠ GeminiWay.GEMINI_HEADER ++ "foo\n" ∧
    FirstEdition.write_file [("foo", none)]
      = FirstEdition.FE_HEADER ++ "foo\n" := by
  refine ⟨by decide, by decide, by decide⟩

/-- C5 (amended): each writer produces exactly its fixed two header lines, a
blank line, then one line per requirement, the requirements ordered by the
case-insensitive sort of the mapping (a permutation of it).  The syntactic
writer formats a line as `name==version` when a version is present and falls
back to the bare name when the version is `None` or empty
(`FirstEdition.reqLine`); the writer of the inferential variant has no
bare-name branch and always renders `name==version`, printing an absent
version as `None` (its resolver only ever stores index-reported versions).
The file is opened in write mode, so each string here is the complete
content at the target path, regardless of what was there before. -/
theorem C5_writer_contract (reqs : List (String × Option String)) :
    FirstEdition.write_file reqs
      = FirstEdition.FE_HEADER ++ joinMap FirstEdition.reqLine (sortReqs reqs) ∧
    GeminiWay.write_file reqs
      = GeminiWay.GEMINI_HEADER
        ++ joinMap (fun e => e.1 ++ "==" ++ pyOptStr e.2 ++ "\n") (sortReqs reqs) ∧
    List.Sorted reqLe (sortReqs reqs) ∧
    (sortReqs reqs).Perm reqs ∧
    FirstEdition.FE_HEADER
      = "# Generated by project scanner. Review for accuracy.\n"
        ++ "# This file lists direct dependencies. Sub-dependencies are handled by pip.\n"
        ++ "\n" ∧
    GeminiWay.GEMINI_HEADER
      = "# Generated by Gemini AI. Review for accuracy.\n"
        ++ "# This file lists the direct dependencies identified from the source code.\n"
        ++ "\n" := by
  refine ⟨foldl_append_eq_joinMap _ _ _, foldl_append_eq_joinMap _ _ _,
    List.sorted_insertionSort reqLe reqs, List.perm_insertionSort reqLe reqs,
    by decide, by decide⟩

/-- C6: the Step-2 filter keeps a candidate iff it is non-empty, not a
standard-library name, and not a local-module name; as a pure Boolean
predicate applied pointwise, its verdict for each candidate — and hence the
membership of the filtered collection — does not depend on the order in
which candidates are examined. -/
theorem C6_filter_contract (stdLib locals cands : List String) (imp : String) :
    imp ∈ cands.filter (FirstEdition.keepCandidate stdLib locals)
      ↔ imp ∈ cands ∧ imp ≠ "" ∧ imp ∉ stdLib ∧ imp ∉ locals := by
  rw [List.mem_filter, keepCandidate_iff]

/-- C7: in the static name maps of both variants, a candidate present in the map
is looked up under the mapped value, which never equals the original
candidate; a candidate absent from the map is looked up under its own name
(identity fallback of `dict.get(imp, imp)`). -/
theorem C7_static_name_map (k v : String) :
    (FirstEdition.IMPORT_TO_PYPI_MAP.lookup k = some v →
      mapGet FirstEdition.IMPORT_TO_PYPI_MAP k = v ∧ v ≠ k) ∧
    (FirstEdition.IMPORT_TO_PYPI_MAP.lookup k = none →
      mapGet FirstEdition.IMPORT_TO_PYPI_MAP k = k) ∧
    (GeminiWay.IMPORT_TO_PYPI_MAP.lookup k = some v →
      mapGet GeminiWay.IMPORT_TO_PYPI_MAP k = v ∧ v ≠ k) ∧
    (GeminiWay.IMPORT_TO_PYPI_MAP.lookup k = none →
      mapGet GeminiWay.IMPORT_TO_PYPI_MAP k = k) := by
  refine ⟨?_, ?_, ?_, ?_⟩
  · intro h
    refine ⟨by simp [mapGet, h], ?_⟩
    have hall : ∀ kv ∈ FirstEdition.IMPORT_TO_PYPI_MAP, kv.2 ≠ kv.1 := by decide
    exact hall (k, v) (lookup_some_mem h)
  · intro h
    simp [mapGet, h]
  · intro h
    refine ⟨by simp [mapGet, h], ?_⟩
    have hall : ∀ kv ∈ GeminiWay.IMPORT_TO_PYPI_MAP, kv.2 ≠ kv.1 := by decide
    exact hall (k, v) (lookup_some_mem h)
  · intro h
    simp [mapGet, h]

/-- C7, witness: a mapped name (`bs4`) and an unmapped one (`requests`) in
the map of each variant. -/
theorem C7_witness :
    (mapGet FirstEdition.IMPORT_TO_PYPI_MAP "bs4" = "beautifulsoup4"
      ∧ "beautifulsoup4" ≠ "bs4") ∧
    mapGet FirstEdition.IMPORT_TO_PYPI_MAP "requests" = "requests" ∧
    (mapGet GeminiWay.IMPORT_TO_PYPI_MAP "cv2" = "opencv-python"
      ∧ "opencv-python" ≠ "cv2") ∧
    mapGet GeminiWay.IMPORT_TO_PYPI_MAP "numpy" = "numpy" :=
  ⟨(C7_static_name_map "bs4" "beautifulsoup4").1 (by decide),
   (C7_static_name_map "requests" "x").2.1 (by decide),
   (C7_static_name_map "cv2" "opencv-python").2.2.1 (by decide),
   (C7_static_name_map "numpy" "x").2.2.2 (by decide)⟩

/-- C8: over a parsed file the extractor collects exactly the first dotted
segments of all plain-import alias names and of the modules of absolute
(level-0) from-imports, and a relative (level > 0) from-import contributes
nothing. -/
theorem C8_syntactic_extractor (stmts : List Stmt) (x : String) :
    (x ∈ collectStmtImports stmts ↔
      (∃ names, Stmt.importStmt names ∈ stmts ∧
        ∃ n ∈ names, headSegment n = x) ∨
      (∃ m, Stmt.importFrom 0 (some m) ∈ stmts ∧ m ≠ "" ∧ headSegment m = x)) ∧
    ∀ (level : Nat) (mod : Option String), level > 0 →
      collectStmtImports [Stmt.importFrom level mod] = [] := by
  constructor
  · exact mem_collectStmtImports
  · intro level mod hl
    show (if level > 0 then []
        else match mod with
          | some m => if m = "" then [] else [headSegment m]
          | none => []) ++ collectStmtImports [] = []
    rw [if_pos hl]
    rfl

/-- C8, witness: a dotted plain import contributes its root segment; a
relative from-import contributes nothing. -/
theorem C8_witness :
    "requests" ∈ collectStmtImports
      [Stmt.importStmt ["requests.sessions"], Stmt.importFrom 1 (some "utils")] ∧
    collectStmtImports [Stmt.importFrom 1 (some "utils")] = [] :=
  ⟨(C8_syntactic_extractor
      [Stmt.importStmt ["requests.sessions"], Stmt.importFrom 1 (some "utils")]
      "requests").1.mpr
     (Or.inl ⟨["requests.sessions"], by decide, "requests.sessions", by decide,
       by decide⟩),
   (C8_syntactic_extractor [] "x").2 1 (some "utils") (by decide)⟩

/-- C9: when the service returns the empty string, the inferential variant
emits the empty-response warning, still writes the manifest consisting of
the header and zero requirement lines, and exits with status 0. -/
theorem C9_empty_response_not_fatal (env : PkgEnv) (apiKey : String)
    (p : Project) (hkey : apiKey ≠ "")
    (hfiles : GeminiWay.geminiCodeFiles p ≠ []) :
    GeminiWay.main env apiKey (Except.ok "") p
      = (0, some GeminiWay.GEMINI_HEADER, [GeminiWay.EMPTY_RESPONSE_WARNING]) := by
  unfold GeminiWay.main GeminiWay.geminiRun
  rw [if_neg hkey, if_neg hfiles]
  rfl

/-- C9, witness: the empty-response run on a one-file project. -/
theorem C9_witness :
    GeminiWay.main envEmpty "key" (Except.ok "") projOneFile
      = (0, some GeminiWay.GEMINI_HEADER, [GeminiWay.EMPTY_RESPONSE_WARNING]) :=
  C9_empty_response_not_fatal envEmpty "key" projOneFile (by decide) (by decide)

/-- C10: the local-module set consists of the basename of every walk entry
that contains an `__init__.py` — the discovery walk applies none of the
directory exclusions of the source scan, so entries below `.venv` and the
like are included — plus the basename of the root directory itself; and every name
in that set is filtered out of the candidate set. -/
theorem C10_local_module_discovery (p : Project) (name : String)
    (stdLib : List String) :
    (name ∈ FirstEdition.find_local_modules p ↔
      name = p.rootName ∨
      ∃ e ∈ p.entries, (e.files.map PyFile.name).contains "__init__.py" = true ∧
        FirstEdition.dirBasename p.rootName e = name) ∧
    (name ∈ FirstEdition.find_local_modules p →
      name ∉ FirstEdition.external_imports stdLib p) := by
  refine ⟨mem_find_local_modules, ?_⟩
  intro h hx
  exact (mem_external_imports.mp hx).2.2.2 h

/-- C10, witness: a package directory buried in `.venv` (pruned from the
source scan) is still discovered as a local module, and its name — although it
is imported by a scanned root file — is filtered out of the candidates. -/
theorem C10_witness :
    "mypkg" ∈ FirstEdition.find_local_modules projVenvPkg ∧
    "mypkg" ∈ FirstEdition.scan_python_files projVenvPkg ∧
    "mypkg" ∉ FirstEdition.external_imports stdLibEx projVenvPkg :=
  ⟨by decide, by decide,
   (C10_local_module_discovery projVenvPkg "mypkg" stdLibEx).2 (by decide)⟩
